import Mathlib

/-!
Verification of the symmetric TCP proxy (`tcpproxy_server.cpp`).

The proxy bridges a client connection to a fixed upstream server, transcoding
between a plain byte stream and a framed obfuscated stream: each frame is
`Base64(plain XOR kKey)` followed by a newline delimiter.

This file shallowly embeds the codec (`encrypt` / `decrypt`, backed by the
TurboBase64 primitives `tb64enc` / `tb64dec`), the bridge state machine
(its two relay pipelines and its `close` teardown), and the acceptor, and
proves the spec-derived claims about them.

Bytes are modelled as `Nat` values; the byte-ness side condition `b < 256`
appears as an explicit hypothesis where the arithmetic needs it.
-/

namespace TcpProxy

/-- XOR key applied to every payload byte (`kKey = 42` in the source). -/
def kKey : Nat := 42

/-- The frame delimiter byte `b64_terminator = '\n'` (ASCII 10). -/
def b64_terminator : Nat := 10

/-- `max_data_length = 8192`: upper bound on a single plaintext read. -/
def max_data_length : Nat := 8192

/-- `TB64ENCLEN(n) = (n + 2) / 3 * 4`: worst-case Base64 output length. -/
def TB64ENCLEN (n : Nat) : Nat := (n + 2) / 3 * 4

/-- `max_encoded_data_length = TB64ENCLEN(max_data_length) + 1`. -/
def max_encoded_data_length : Nat := TB64ENCLEN max_data_length + 1

/-- The standard Base64 alphabet map: a 6-bit value to its ASCII code. -/
def b64Char (n : Nat) : Nat :=
  if n < 26 then 65 + n
  else if n < 52 then 97 + (n - 26)
  else if n < 62 then 48 + (n - 52)
  else if n = 62 then 43
  else 47

/-- Inverse of the Base64 alphabet map; `none` on a byte outside the
alphabet (`'='`, ASCII 61, is not in the alphabet). -/
def b64CharDec (c : Nat) : Option Nat :=
  if 65 ≤ c ∧ c ≤ 90 then some (c - 65)
  else if 97 ≤ c ∧ c ≤ 122 then some (c - 97 + 26)
  else if 48 ≤ c ∧ c ≤ 57 then some (c - 48 + 52)
  else if c = 43 then some 62
  else if c = 47 then some 63
  else none

/-- Standard Base64 encoding of a byte list, with `'='` padding, three input
bytes per four output characters.  Model of TurboBase64's `tb64enc` output. -/
def b64encode : List Nat → List Nat
  | [] => []
  | [a] => [b64Char (a / 4), b64Char (a % 4 * 16), 61, 61]
  | [a, b] => [b64Char (a / 4), b64Char (a % 4 * 16 + b / 16), b64Char (b % 16 * 4), 61]
  | a :: b :: c :: rest =>
      b64Char (a / 4) :: b64Char (a % 4 * 16 + b / 16) ::
      b64Char (b % 16 * 4 + c / 64) :: b64Char (c % 64) :: b64encode rest

/-- Standard Base64 decoding with validation: `none` when the input length is
not a multiple of four, a character is outside the alphabet, or padding is
misplaced.  Model of TurboBase64's `tb64dec` validation behaviour. -/
def b64decode : List Nat → Option (List Nat)
  | [] => some []
  | w :: x :: y :: z :: rest =>
      if rest = [] ∧ y = 61 ∧ z = 61 then
        match b64CharDec w, b64CharDec x with
        | some a, some b => some [a * 4 + b / 16]
        | _, _ => none
      else if rest = [] ∧ z = 61 then
        match b64CharDec w, b64CharDec x, b64CharDec y with
        | some a, some b, some c => some [a * 4 + b / 16, b % 16 * 16 + c / 4]
        | _, _, _ => none
      else
        match b64CharDec w, b64CharDec x, b64CharDec y, b64CharDec z, b64decode rest with
        | some a, some b, some c, some d, some out =>
            some ((a * 4 + b / 16) :: (b % 16 * 16 + c / 4) :: (c % 4 * 64 + d) :: out)
        | _, _, _, _, _ => none
  | _ => none

/-- `tb64enc`: returns the encoded bytes (the C function returns the output
length; length 0 means nothing was produced). -/
def tb64enc (l : List Nat) : List Nat := b64encode l

/-- `tb64dec`: returns the decoded bytes, or the empty list on invalid input
(the C function returns 0, which the callers treat as failure). -/
def tb64dec (l : List Nat) : List Nat := (b64decode l).getD []

/-- The in-place XOR loop applied by both `encrypt` and `decrypt`. -/
def xorBytes (l : List Nat) : List Nat := l.map fun b => b ^^^ kKey

/-- `bridge::encrypt`: XOR the buffer with `kKey`, Base64-encode, fail if the
encoder reports length `<= 0`, else append the terminator.  Returns the
produced frame, `none` on failure. -/
def encrypt (data : List Nat) : Option (List Nat) :=
  let processed := tb64enc (xorBytes data)
  if processed.length = 0 then none
  else some (processed ++ [b64_terminator])

/-- `bridge::decrypt`: fail if the frame is empty or its last byte is not the
terminator; Base64-decode the rest, fail if the decoder reports length
`<= 0`; XOR with `kKey`.  Returns the plaintext, `none` on failure. -/
def decrypt (data : List Nat) : Option (List Nat) :=
  if data.length = 0 then none
  else if data.getLast? ≠ some b64_terminator then none
  else
    let processed := tb64dec data.dropLast
    if processed.length = 0 then none
    else some (xorBytes processed)

/-! ## Codec lemmas -/

theorem b64Char_ne_61 (n : Nat) : b64Char n ≠ 61 := by
  unfold b64Char; split <;> [omega; split <;> [omega; split <;> [omega; split <;> omega]]]

theorem b64Char_ne_term (n : Nat) : b64Char n ≠ b64_terminator := by
  unfold b64Char b64_terminator
  split <;> [omega; split <;> [omega; split <;> [omega; split <;> omega]]]

theorem b64CharDec_b64Char : ∀ n < 64, b64CharDec (b64Char n) = some n := by decide

theorem b64encode_length : ∀ l : List Nat, (b64encode l).length = (l.length + 2) / 3 * 4
  | [] => rfl
  | [_] => by simp [b64encode]
  | [_, _] => by simp [b64encode]
  | _ :: _ :: _ :: rest => by
      simp only [b64encode, List.length_cons, b64encode_length rest]
      omega

theorem b64decode_b64encode : ∀ l : List Nat, (∀ b ∈ l, b < 256) →
    b64decode (b64encode l) = some l
  | [], _ => rfl
  | [p], h => by
      have hp : p < 256 := h p (by simp)
      have e1 := b64CharDec_b64Char (p / 4) (by omega)
      have e2 := b64CharDec_b64Char (p % 4 * 16) (by omega)
      simp [b64encode, b64decode, e1, e2]
      omega
  | [p, q], h => by
      have hp : p < 256 := h p (by simp)
      have hq : q < 256 := h q (by simp)
      have e1 := b64CharDec_b64Char (p / 4) (by omega)
      have e2 := b64CharDec_b64Char (p % 4 * 16 + q / 16) (by omega)
      have e3 := b64CharDec_b64Char (q % 16 * 4) (by omega)
      simp [b64encode, b64decode, e1, e2, e3, b64Char_ne_61]
      omega
  | p :: q :: r :: rest, h => by
      have hp : p < 256 := h p (by simp)
      have hq : q < 256 := h q (by simp)
      have hr : r < 256 := h r (by simp)
      have ih := b64decode_b64encode rest (fun x hx => h x (by simp [hx]))
      have e1 := b64CharDec_b64Char (p / 4) (by omega)
      have e2 := b64CharDec_b64Char (p % 4 * 16 + q / 16) (by omega)
      have e3 := b64CharDec_b64Char (q % 16 * 4 + r / 64) (by omega)
      have e4 := b64CharDec_b64Char (r % 64) (by omega)
      simp [b64encode, b64decode, e1, e2, e3, e4, ih, b64Char_ne_61]
      omega

theorem xorBytes_xorBytes (l : List Nat) : xorBytes (xorBytes l) = l := by
  simp only [xorBytes, List.map_map]
  conv_rhs => rw [← List.map_id l]
  refine List.map_congr_left fun b _ => ?_
  exact Nat.xor_cancel_right kKey b

theorem xor_key_lt (b : Nat) (h : b < 256) : b ^^^ kKey < 256 := by
  unfold kKey
  have := Nat.xor_lt_two_pow (n := 8) (by simpa using h) (by norm_num : (42 : Nat) < 2 ^ 8)
  simpa using this

theorem xorBytes_lt (l : List Nat) (h : ∀ b ∈ l, b < 256) :
    ∀ b ∈ xorBytes l, b < 256 := by
  intro b hb
  simp only [xorBytes, List.mem_map] at hb
  obtain ⟨a, ha, rfl⟩ := hb
  exact xor_key_lt a (h a ha)

theorem xorBytes_length (l : List Nat) : (xorBytes l).length = l.length := by
  simp [xorBytes]

/-- Successful `encrypt` output, explicitly: Base64 of the XOR'd input,
followed by the terminator. -/
theorem encrypt_eq (p : List Nat) (hne : p ≠ []) :
    encrypt p = some (b64encode (xorBytes p) ++ [b64_terminator]) := by
  have hlen : (b64encode (xorBytes p)).length ≠ 0 := by
    rw [b64encode_length, xorBytes_length]
    have : p.length ≠ 0 := by simpa using hne
    omega
  simp [encrypt, tb64enc, hlen]

/-- `decrypt` inverts the frame produced by `encrypt`. -/
theorem decrypt_encrypt_frame (p : List Nat) (hne : p ≠ []) (hb : ∀ b ∈ p, b < 256) :
    decrypt (b64encode (xorBytes p) ++ [b64_terminator]) = some p := by
  have hdec : b64decode (b64encode (xorBytes p)) = some (xorBytes p) :=
    b64decode_b64encode _ (xorBytes_lt p hb)
  have hlen : (xorBytes p).length ≠ 0 := by
    rw [xorBytes_length]
    simpa using hne
  simp only [decrypt, List.length_append, List.getLast?_concat, List.dropLast_concat,
    tb64dec, hdec, Option.getD_some]
  rw [if_neg (by simp), if_neg (by simp), if_neg hlen, xorBytes_xorBytes]

/-- `encrypt` succeeds exactly on nonempty input: the only failure test in the
code is `tb64enc` reporting output length `<= 0`, which happens only for an
empty buffer. -/
theorem encrypt_isSome_iff (p : List Nat) : (encrypt p).isSome = true ↔ p ≠ [] := by
  constructor
  · intro h
    rintro rfl
    simp [encrypt, tb64enc, xorBytes, b64encode] at h
  · intro h
    rw [encrypt_eq p h]
    rfl

/-! ## Bridge state machine

The bridge owns two sockets; each of its two relay pipelines keeps a list of
asynchronous operations currently in flight on it (in `asio`, completion
handlers that have been bound and not yet fired).  `step` consumes a
completion event for the head in-flight operation and runs the corresponding
handler, which is a direct translation of the C++ handler body.
-/

/-- The open/closed state of the bridge's two sockets. -/
structure BridgeSockets where
  downstream_open : Bool
  upstream_open : Bool
deriving DecidableEq

/-- Closing a raw socket: errors when the socket is already closed (as
`asio`'s throwing `close()` does on a bad descriptor), else the socket
becomes closed. -/
def socket_close (isOpen : Bool) : Except String Bool :=
  if isOpen then .ok false else .error "close on closed socket"

/-- `bridge::close`: close the downstream socket if it `is_open()`, then the
upstream socket if it `is_open()`; a socket already closed is left alone. -/
def bridge_close (s : BridgeSockets) : Except String BridgeSockets := do
  let d ← if s.downstream_open then socket_close s.downstream_open else pure s.downstream_open
  let u ← if s.upstream_open then socket_close s.upstream_open else pure s.upstream_open
  pure ⟨d, u⟩

/-- `bridge_close` iterated: close the bridge `n` times in a row. -/
def bridge_close_iter : Nat → BridgeSockets → Except String BridgeSockets
  | 0, s => .ok s
  | n + 1, s => (bridge_close s).bind (bridge_close_iter n)

/-- An in-flight operation of Pipeline A (encoded side → plain side). -/
inductive AOp where
  | readCipher : AOp
  | writePlain : List Nat → AOp
deriving DecidableEq

/-- An in-flight operation of Pipeline B (plain side → encoded side). -/
inductive BOp where
  | readPlain : BOp
  | writeCipher : List Nat → BOp
deriving DecidableEq

/-- Bridge state: socket open flags, whether the initial upstream connect is
still outstanding, and the in-flight operations of the two pipelines. -/
structure Bridge where
  sockets : BridgeSockets
  connectPending : Bool
  pendingA : List AOp
  pendingB : List BOp
deriving DecidableEq

/-- The sockets after a (always successful, by `bridge_close_ok` below)
guarded close; the error branch is unreachable. -/
def run_close (s : BridgeSockets) : BridgeSockets :=
  match bridge_close s with
  | .ok t => t
  | .error _ => s

/-- `close()` as it acts on the bridge state: pending handlers stay bound
(closing the sockets only makes them complete with errors later). -/
def close_bridge (br : Bridge) : Bridge :=
  { br with sockets := run_close br.sockets }

/-- `bridge::handle_upstream_connect`: on success, issue the delimited read
on the ciphertext socket (Pipeline A) and the partial read on the plaintext
socket (Pipeline B); on error, `close()`. -/
def handle_upstream_connect (error : Bool) (br : Bridge) : Bridge :=
  if !error then
    { br with pendingA := br.pendingA ++ [.readCipher],
              pendingB := br.pendingB ++ [.readPlain] }
  else close_bridge br

/-- `bridge::handle_ciphertext_read`: on error, `close()`.  Otherwise the
oversized-frame check calls `close()` but does NOT return (the `if` has no
`else` and falls through — modelled faithfully); the `istream` read from the
streambuf always succeeds (the buffer holds `bytes_transferred` bytes), so
the code continues: `close()` on `decrypt` failure, else `async_write` of
the decoded bytes on the plaintext socket. -/
def handle_ciphertext_read (error : Bool) (frame : List Nat) (br : Bridge) : Bridge :=
  if !error then
    let br1 := if max_encoded_data_length < frame.length then close_bridge br else br
    match decrypt frame with
    | none => close_bridge br1
    | some plain => { br1 with pendingA := br1.pendingA ++ [.writePlain plain] }
  else close_bridge br

/-- `bridge::handle_plaintext_write`: on success, issue the next delimited
read on the ciphertext socket; on error, `close()`. -/
def handle_plaintext_write (error : Bool) (br : Bridge) : Bridge :=
  if !error then { br with pendingA := br.pendingA ++ [.readCipher] }
  else close_bridge br

/-- `bridge::handle_plaintext_read`: on error, `close()`; else `encrypt` the
chunk, `close()` on failure, else `async_write` the frame on the ciphertext
socket. -/
def handle_plaintext_read (error : Bool) (chunk : List Nat) (br : Bridge) : Bridge :=
  if !error then
    match encrypt chunk with
    | none => close_bridge br
    | some enc => { br with pendingB := br.pendingB ++ [.writeCipher enc] }
  else close_bridge br

/-- `bridge::handle_ciphertext_write`: on success, issue the next partial
read on the plaintext socket; on error, `close()`. -/
def handle_ciphertext_write (error : Bool) (br : Bridge) : Bridge :=
  if !error then { br with pendingB := br.pendingB ++ [.readPlain] }
  else close_bridge br

/-- A completion event delivered by the reactor: the outcome of the
corresponding outstanding asynchronous operation. -/
inductive Event where
  | connectDone : Bool → Event
  | cipherReadDone : Bool → List Nat → Event
  | plainWriteDone : Bool → Event
  | plainReadDone : Bool → List Nat → Event
  | cipherWriteDone : Bool → Event
deriving DecidableEq

/-- One reactor step: an event fires only if the matching operation is the
head in-flight operation of its pipeline; the operation is consumed and its
completion handler runs. -/
def step (br : Bridge) : Event → Bridge
  | .connectDone err =>
      if br.connectPending then handle_upstream_connect err { br with connectPending := false }
      else br
  | .cipherReadDone err frame =>
      match br.pendingA with
      | .readCipher :: rest => handle_ciphertext_read err frame { br with pendingA := rest }
      | _ => br
  | .plainWriteDone err =>
      match br.pendingA with
      | .writePlain _ :: rest => handle_plaintext_write err { br with pendingA := rest }
      | _ => br
  | .plainReadDone err chunk =>
      match br.pendingB with
      | .readPlain :: rest => handle_plaintext_read err chunk { br with pendingB := rest }
      | _ => br
  | .cipherWriteDone err =>
      match br.pendingB with
      | .writeCipher _ :: rest => handle_ciphertext_write err { br with pendingB := rest }
      | _ => br

/-- A bridge as `acceptor::handle_accept` leaves it after `start()`: both
sockets held, the upstream connect outstanding, no pipeline running yet. -/
def initBridge : Bridge :=
  { sockets := ⟨true, true⟩, connectPending := true, pendingA := [], pendingB := [] }

/-- Run the bridge through a sequence of completion events. -/
def runEvents (events : List Event) : Bridge :=
  events.foldl step initBridge

/-! ## Acceptor -/

/-- Acceptor state: whether an `async_accept` is armed. -/
structure Acceptor where
  accepting : Bool
deriving DecidableEq

/-- `acceptor::handle_accept`: on success, `session_->start(...)` (a bridge
is started — second component) and `accept_connections()` re-arms the
accept; on error, log and stop accepting. -/
def handle_accept (error : Bool) : Acceptor × Bool :=
  if !error then ({ accepting := true }, true)
  else ({ accepting := false }, false)

/-! ## Mode-flag socket aliases -/

/-- The two endpoints of a bridge. -/
inductive SocketSide where
  | downstream : SocketSide
  | upstream : SocketSide
deriving DecidableEq

/-- `bridge::ciphertext_socket`: `g_encode ? upstream_socket_ : downstream_socket_`. -/
def ciphertext_socket (g_encode : Bool) : SocketSide :=
  if g_encode then .upstream else .downstream

/-- `bridge::plaintext_socket`: `g_encode ? downstream_socket_ : upstream_socket_`. -/
def plaintext_socket (g_encode : Bool) : SocketSide :=
  if g_encode then .downstream else .upstream

/-! ## Bridge lemmas -/

/-- The guarded close never reaches the raw-socket error path: it succeeds
from every socket state and leaves both sockets closed. -/
theorem bridge_close_ok (s : BridgeSockets) :
    bridge_close s = .ok ⟨false, false⟩ := by
  obtain ⟨d, u⟩ := s
  cases d <;> cases u <;> rfl

theorem run_close_eq (s : BridgeSockets) : run_close s = ⟨false, false⟩ := by
  simp [run_close, bridge_close_ok]

/-- Invariant maintained by the reactor: before the upstream connect
completes no pipeline is running, and afterwards each pipeline has at most
one operation in flight. -/
def BridgeInv (br : Bridge) : Prop :=
  (br.connectPending = true → br.pendingA = [] ∧ br.pendingB = []) ∧
  br.pendingA.length ≤ 1 ∧ br.pendingB.length ≤ 1

theorem bridgeInv_step (br : Bridge) (e : Event) (h : BridgeInv br) :
    BridgeInv (step br e) := by
  obtain ⟨h1, h2, h3⟩ := h
  cases e with
  | connectDone err =>
      simp only [step]
      split
      · rename_i hp
        obtain ⟨ha, hb⟩ := h1 hp
        cases err <;>
          simp [handle_upstream_connect, close_bridge, BridgeInv, ha, hb]
      · exact ⟨h1, h2, h3⟩
  | cipherReadDone err frame =>
      simp only [step]
      split
      · rename_i rest heq
        have hrest : rest.length = 0 := by
          have := h2
          rw [heq] at this
          simpa using this
        have hcp : br.connectPending = false := by
          by_contra hc
          have := (h1 (by simpa using hc)).1
          rw [heq] at this
          simp at this
        cases err with
        | true => simp [handle_ciphertext_read, close_bridge, BridgeInv, hcp, hrest, h3]
        | false =>
          by_cases ho : max_encoded_data_length < frame.length <;>
            rcases hd : decrypt frame with _ | plain <;>
              simp [handle_ciphertext_read, close_bridge, BridgeInv, hcp, hrest, h3, hd, ho]
      · exact ⟨h1, h2, h3⟩
  | plainWriteDone err =>
      simp only [step]
      split
      · rename_i d rest heq
        have hrest : rest.length = 0 := by
          have := h2
          rw [heq] at this
          simpa using this
        have hcp : br.connectPending = false := by
          by_contra hc
          have := (h1 (by simpa using hc)).1
          rw [heq] at this
          simp at this
        cases err <;>
          simp [handle_plaintext_write, close_bridge, BridgeInv, hcp, hrest, h3]
      · exact ⟨h1, h2, h3⟩
  | plainReadDone err chunk =>
      simp only [step]
      split
      · rename_i rest heq
        have hrest : rest.length = 0 := by
          have := h3
          rw [heq] at this
          simpa using this
        have hcp : br.connectPending = false := by
          by_contra hc
          have := (h1 (by simpa using hc)).2
          rw [heq] at this
          simp at this
        cases err with
        | true => simp [handle_plaintext_read, close_bridge, BridgeInv, hcp, hrest, h2]
        | false =>
          rcases hd : encrypt chunk with _ | enc <;>
            simp [handle_plaintext_read, close_bridge, BridgeInv, hcp, hrest, h2, hd]
      · exact ⟨h1, h2, h3⟩
  | cipherWriteDone err =>
      simp only [step]
      split
      · rename_i d rest heq
        have hrest : rest.length = 0 := by
          have := h3
          rw [heq] at this
          simpa using this
        have hcp : br.connectPending = false := by
          by_contra hc
          have := (h1 (by simpa using hc)).2
          rw [heq] at this
          simp at this
        cases err <;>
          simp [handle_ciphertext_write, close_bridge, BridgeInv, hcp, hrest, h2]
      · exact ⟨h1, h2, h3⟩

theorem bridgeInv_foldl (br : Bridge) (events : List Event) (h : BridgeInv br) :
    BridgeInv (events.foldl step br) := by
  induction events generalizing br with
  | nil => exact h
  | cons e es ih => exact ih _ (bridgeInv_step br e h)

theorem bridgeInv_runEvents (events : List Event) : BridgeInv (runEvents events) :=
  bridgeInv_foldl initBridge events (by simp [BridgeInv, initBridge])

/-- The frame delimiter never occurs in Base64 output: every produced byte is
an alphabet character or the padding byte 61, none of which is 10. -/
theorem term_not_mem_b64encode : ∀ l : List Nat, b64_terminator ∉ b64encode l
  | [] => by simp [b64encode]
  | [_] => by
      simp [b64encode, b64_terminator]
      exact ⟨Ne.symm (b64Char_ne_term _), Ne.symm (b64Char_ne_term _)⟩
  | [_, _] => by
      simp [b64encode, b64_terminator]
      exact ⟨Ne.symm (b64Char_ne_term _), Ne.symm (b64Char_ne_term _),
        Ne.symm (b64Char_ne_term _)⟩
  | _ :: _ :: _ :: rest => by
      simp only [b64encode, List.mem_cons, not_or]
      refine ⟨Ne.symm (b64Char_ne_term _), Ne.symm (b64Char_ne_term _),
        Ne.symm (b64Char_ne_term _), Ne.symm (b64Char_ne_term _),
        term_not_mem_b64encode rest⟩

/-! ## Claims -/

/-- The oversized branch of `handle_ciphertext_read`, in general: when the
frame exceeds the bound but still decodes, the handler closes the sockets
AND issues the write of the decoded bytes. -/
theorem handle_ciphertext_read_oversized (frame plain : List Nat) (br : Bridge)
    (hlen : max_encoded_data_length < frame.length) (hd : decrypt frame = some plain) :
    handle_ciphertext_read false frame br =
      { br with sockets := ⟨false, false⟩, pendingA := br.pendingA ++ [.writePlain plain] } := by
  simp [handle_ciphertext_read, hlen, hd, close_bridge, run_close_eq]

/-- C1 (code bug): the source's oversized-frame check in
`handle_ciphertext_read` calls `close()` but falls through instead of
returning, so a delimited frame longer than `max_encoded_data_length` is
still decoded and a write of the decoded plaintext is still issued on the
plain side.  Witnessed on an 8196-byte plaintext whose frame is 10929 bytes,
exceeding the 10925-byte bound: the handler closes the sockets AND appends a
`writePlain` of the fully decoded frame. -/
theorem C1_oversized_frame_processed_anyway :
    max_encoded_data_length <
      (b64encode (xorBytes (List.replicate 8196 0)) ++ [b64_terminator]).length ∧
    ∀ br : Bridge,
      handle_ciphertext_read false
          (b64encode (xorBytes (List.replicate 8196 0)) ++ [b64_terminator]) br =
        { br with sockets := ⟨false, false⟩,
                  pendingA := br.pendingA ++ [.writePlain (List.replicate 8196 0)] } := by
  have hne : List.replicate 8196 (0 : Nat) ≠ [] := by
    apply List.ne_nil_of_length_pos
    rw [List.length_replicate]
    norm_num
  have hb : ∀ b ∈ List.replicate 8196 (0 : Nat), b < 256 := by
    intro b hb
    rw [List.eq_of_mem_replicate hb]
    norm_num
  have hlen : max_encoded_data_length <
      (b64encode (xorBytes (List.replicate 8196 0)) ++ [b64_terminator]).length := by
    simp only [List.length_append, b64encode_length, xorBytes_length, List.length_replicate,
      List.length_cons, List.length_nil, max_encoded_data_length, TB64ENCLEN, max_data_length]
    norm_num
  exact ⟨hlen, fun br => handle_ciphertext_read_oversized _ _ br hlen
    (decrypt_encrypt_frame (List.replicate 8196 0) hne hb)⟩

/-- C2 counterexample: the claim quantifies over `0 ≤ len(p)`, but encoding
the empty sequence fails (`tb64enc` reports length 0, which `encrypt`
treats as failure), so `decode(encode(p)) = p` does not hold at `p = []`. -/
theorem C2_empty_input_encode_fails :
    ([] : List Nat).length ≤ max_data_length ∧ encrypt ([] : List Nat) = none := by
  constructor
  · simp [max_data_length]
  · rfl

/-- C2 (amended): for every nonempty byte sequence `p` with
`len(p) ≤ max_data_length`, encoding succeeds and decoding the produced
frame yields exactly `p`. -/
theorem C2_roundtrip (p : List Nat) (hne : p ≠ []) (_hlen : p.length ≤ max_data_length)
    (hb : ∀ b ∈ p, b < 256) :
    ∃ e, encrypt p = some e ∧ decrypt e = some p :=
  ⟨_, encrypt_eq p hne, decrypt_encrypt_frame p hne hb⟩

theorem C2_roundtrip_witness :
    ∃ e, encrypt [104, 105] = some e ∧ decrypt e = some [104, 105] :=
  C2_roundtrip [104, 105] (by decide) (by decide) (by decide)

/-- C3 counterexample: `encrypt` performs no length check, so an input whose
frame exceeds `max_encoded_data_length` (8194 bytes encode to a 10929-byte
frame, above the 10925-byte bound) is encoded successfully rather than
rejected. -/
theorem C3_overlong_input_encodes :
    ∃ e, encrypt (List.replicate 8194 7) = some e ∧ max_encoded_data_length < e.length := by
  have hne : List.replicate 8194 (7 : Nat) ≠ [] := by
    apply List.ne_nil_of_length_pos
    rw [List.length_replicate]
    norm_num
  refine ⟨_, encrypt_eq _ hne, ?_⟩
  simp only [List.length_append, b64encode_length, xorBytes_length, List.length_replicate,
    List.length_cons, List.length_nil, max_encoded_data_length, TB64ENCLEN, max_data_length]
  norm_num

/-- C3 (amended): the codec does not reject over-long input; `encrypt`
succeeds exactly on nonempty input, regardless of length — bounding the
input is entirely the caller's responsibility. -/
theorem C3_no_codec_length_check (p : List Nat) : (encrypt p).isSome = true ↔ p ≠ [] :=
  encrypt_isSome_iff p

/-- C4: `decrypt` fails exactly when the frame is empty, or its final byte is
not the delimiter, or the Base64 decode of the rest yields length zero (the
only non-positive length a `size_t` result admits); in every other case it
returns the Base64-decoded bytes XOR'd with the key. -/
theorem C4_decrypt_characterization (data : List Nat) :
    decrypt data =
      if data.length = 0 ∨ data.getLast? ≠ some b64_terminator ∨
          (tb64dec data.dropLast).length = 0
      then none
      else some (xorBytes (tb64dec data.dropLast)) := by
  by_cases h1 : data.length = 0 <;> by_cases h2 : data.getLast? = some b64_terminator <;>
    by_cases h3 : (tb64dec data.dropLast).length = 0 <;>
      simp [decrypt, h1, h2, h3]

/-- C5: a successfully produced frame ends with the delimiter, and the
delimiter occurs at no earlier position (the Base64 alphabet and the padding
byte both exclude it). -/
theorem C5_frame_delimiter (p e : List Nat) (h : encrypt p = some e) :
    e.getLast? = some b64_terminator ∧ b64_terminator ∉ e.dropLast := by
  have hne : p ≠ [] := by
    intro hp
    rw [hp] at h
    simp [encrypt, tb64enc, xorBytes, b64encode] at h
  rw [encrypt_eq p hne] at h
  obtain rfl : e = b64encode (xorBytes p) ++ [b64_terminator] := (Option.some.injEq _ _).mp h.symm
  refine ⟨List.getLast?_concat _, ?_⟩
  rw [List.dropLast_concat]
  exact term_not_mem_b64encode _

theorem C5_frame_delimiter_witness :
    ([81, 107, 77, 61, 10] : List Nat).getLast? = some b64_terminator ∧
      b64_terminator ∉ ([81, 107, 77, 61, 10] : List Nat).dropLast :=
  C5_frame_delimiter [104, 105] [81, 107, 77, 61, 10] (by decide)

/-- C6: the bridge's `close` is idempotent — any positive number of
invocations, from any socket state, succeeds (no error is raised for an
already-closed socket, thanks to the `is_open()` guards) and leaves both
sockets closed. -/
theorem C6_close_idempotent (s : BridgeSockets) (n : Nat) :
    bridge_close_iter (n + 1) s = .ok ⟨false, false⟩ := by
  induction n generalizing s with
  | zero =>
      rw [bridge_close_iter, bridge_close_ok]
      rfl
  | succ m ih =>
      rw [bridge_close_iter, bridge_close_ok]
      exact ih ⟨false, false⟩

/-- C7: a failed upstream connect closes both sockets without issuing any
pipeline operation (so no data is exchanged), the dead bridge ignores every
further event, and the acceptor's accept handler re-arms the accept
independently of any bridge, so the listener keeps accepting. -/
theorem C7_connect_failure_isolated :
    step initBridge (.connectDone true) =
      { sockets := ⟨false, false⟩, connectPending := false, pendingA := [], pendingB := [] } ∧
    (∀ e : Event, step (step initBridge (.connectDone true)) e =
      step initBridge (.connectDone true)) ∧
    handle_accept false = ({ accepting := true }, true) := by
  refine ⟨rfl, fun e => ?_, rfl⟩
  cases e <;> rfl

/-- C8: the encoded-side and plain-side socket aliases are resolved from the
mode flag as `ciphertext_socket = encode ? upstream : downstream`, with
`plaintext_socket` the other endpoint; both are pure functions of the
immutable flag, hence never change. -/
theorem C8_side_resolution (g : Bool) :
    ciphertext_socket g = (if g then .upstream else .downstream) ∧
    plaintext_socket g = (if g then .downstream else .upstream) ∧
    plaintext_socket g ≠ ciphertext_socket g := by
  cases g <;> exact ⟨rfl, rfl, by decide⟩

/-- C9: in every state the bridge reactor can reach, each pipeline has at
most one operation in flight — a handler issues the next read only when a
write completes and the next write only when a read completes, so chunks
are relayed strictly sequentially per pipeline. -/
theorem C9_at_most_one_inflight (events : List Event) :
    (runEvents events).pendingA.length ≤ 1 ∧ (runEvents events).pendingB.length ≤ 1 :=
  (bridgeInv_runEvents events).2

/-- C10: encoding the empty chunk fails (`tb64enc` reports length 0), so a
plain-side read that completes with zero bytes drives
`handle_plaintext_read` into the failure branch, which closes the bridge. -/
theorem C10_zero_byte_read_closes (br : Bridge) :
    encrypt [] = none ∧ handle_plaintext_read false [] br = close_bridge br :=
  ⟨rfl, rfl⟩

end TcpProxy
